import Mathlib

/-!
Verification development for the `redaer` feed aggregator.

This file gives a shallow embedding of the feed-tracking engine:
the per-link state machine (`checkLink`), feed discovery
(`findFeedUrl`, `checkForFeedUrl`, `namedLikeFeedLink`), the article
refresh (`checkForArticles`) and the generic RSS/Atom/RDF item
extractor (`feedParser`, `genericExtractArticle`, `parseTime`), plus
the store-level operations (`InterestedIn`, `UnreadArticles`,
`MarkAllAsRead`).

Modelling conventions:
- `time.Time` values are modelled as `Int` nanoseconds; the Go zero
  time is `0`; `Before`/`After` are `<`/`>`; `Sub` is subtraction.
- Go `error` values are the inductive `GoError`; `io.EOF` is a
  distinguished constructor because `feedParser` compares against it.
- The network, URL resolution (`url.Parse`/`ResolveReference`) and the
  `time.Parse` layout engine are external effects; they are supplied by
  an `Env` record of oracle functions.  A fetched body is carried in a
  `FetchResponse` both as the XML token stream seen by `xml.NewDecoder`
  and as the link list / error produced by `links.Extract` on it.
- `encoding/xml`'s strict decoder is modelled by `Decoder`: a token
  stream plus the stack of open elements; a close tag that does not
  match the top of the stack, or EOF with open elements, is a syntax
  error, exactly the checks the Go decoder performs.
- The `for` loops of `feedParser` and `genericExtractArticle` are
  written with a fuel parameter; every iteration consumes one token, so
  the fuel `tokens + 1` passed at every call site is never exhausted
  and the out-of-fuel branch is unreachable.
-/

/-- One article extracted from a feed (`store.Article`). -/
structure Article where
  url : String
  title : String
  pubDate : Int
deriving Repr, DecidableEq

/-- The states of `store.LinkState`. -/
inductive LinkState where
  | LinkIsNew
  | LinkNoFeedFound
  | LinkTransientError
  | LinkHasFeed
  | LinkIgnore
deriving Repr, DecidableEq

/-- Go `error` values that occur in the engine.  `linkError` is
`store.LinkError` with its `Transient` flag; `syntaxError` stands for
`encoding/xml` / `net/url` errors; `eof` is `io.EOF`. -/
inductive GoError where
  | linkError (msg : String) (transient : Bool)
  | syntaxError (msg : String)
  | eof
deriving Repr, DecidableEq

/-- Model of `store.IsTransient`: true only for a `LinkError` with the flag set. -/
def IsTransient : GoError → Bool
  | .linkError _ t => t
  | _ => false

/-- Model of `store.MkError`: a permanent `LinkError`. -/
def MkError (msg : String) : GoError := .linkError msg false

/-- Model of `store.MkTransientError`. -/
def MkTransientError (msg : String) : GoError := .linkError msg true

/-- The `LinkError.Error()` rendering, used when errors are wrapped into
messages. -/
def errString : GoError → String
  | .linkError m true => "TRANSIENT: " ++ m
  | .linkError m false => m
  | .syntaxError m => m
  | .eof => "EOF"

/-- Model of `store.LinkDetails`. -/
structure LinkDetails where
  baseUrl : String
  state : LinkState
  feedUrl : String
  lastError : Option GoError
  title : String
  lastRead : Int
  lastChecked : Int
  articles : List Article
deriving Repr, DecidableEq

/-- Model of `LinkDetails.ErrorOccurred`. -/
def LinkDetails.errorOccurred (link : LinkDetails) (err : GoError) : LinkDetails :=
  { link with state := .LinkTransientError, lastError := some err }

/-- A link extracted from a page (`links.Link`). -/
structure Link where
  title : String
  url : String
deriving Repr, DecidableEq

/-- XML tokens as delivered by `xml.Decoder.Token`; names are the
`Name.Local` parts, attributes are (local name, value) pairs. -/
inductive XmlToken where
  | startElement (name : String) (attrs : List (String × String))
  | endElement (name : String)
  | charData (s : String)
deriving Repr, DecidableEq

/-- The state of an `xml.Decoder`: the remaining token stream and the
stack of currently open element names. -/
structure Decoder where
  toks : List XmlToken
  stack : List String
deriving Repr, DecidableEq

/-- Model of `xml.Decoder.Token`: `.ok none` is `io.EOF`; a close tag that does
not match the innermost open element, an extra close tag, or EOF while
elements are still open are syntax errors, as in `encoding/xml`'s
strict mode. -/
def Decoder.token : Decoder → Except GoError (Option (XmlToken × Decoder))
  | ⟨[], []⟩ => .ok none
  | ⟨[], _ :: _⟩ => .error (.syntaxError ("unexpected EOF"))
  | ⟨.startElement n attrs :: rest, st⟩ =>
      .ok (some (.startElement n attrs, ⟨rest, n :: st⟩))
  | ⟨.endElement n :: rest, st⟩ =>
      match st with
      | [] => .error (.syntaxError ("unexpected end element"))
      | top :: st' =>
          if top == n then .ok (some (.endElement n, ⟨rest, st'⟩))
          else .error (.syntaxError ("element closed by wrong name"))
  | ⟨.charData s :: rest, st⟩ => .ok (some (.charData s, ⟨rest, st⟩))

/-- Model of `store.firstStartElement`, inlined on the decoder state: skip
tokens until the first start element; every decoder error (including
EOF) is collapsed into the permanent error the Go code returns. -/
def firstStartElementAux :
    List XmlToken → List String →
    Except GoError ((String × List (String × String)) × Decoder)
  | [], _ => .error (MkError ("No start element found."))
  | .startElement n attrs :: rest, st => .ok ((n, attrs), ⟨rest, n :: st⟩)
  | .endElement n :: rest, st =>
      match st with
      | [] => .error (MkError ("No start element found."))
      | top :: st' =>
          if top == n then firstStartElementAux rest st'
          else .error (MkError ("No start element found."))
  | .charData _ :: rest, st => firstStartElementAux rest st

/-- Model of `store.firstStartElement`. -/
def firstStartElement (d : Decoder) :
    Except GoError ((String × List (String × String)) × Decoder) :=
  firstStartElementAux d.toks d.stack

/-- The `time.Parse` layout engine, supplied as an oracle:
`tp layout value` is `some t` when Go's `time.Parse layout value`
succeeds with time `t`. -/
abbrev TimeParse := String → String → Option Int

/-- The layout list of `store.parseTime`: `time.RFC822`,
`time.RFC822Z`, `time.RFC1123`, `time.RFC1123Z`, `time.RFC3339` and
the bare year-month-day form, in source order. -/
def timeFormats : List String :=
  ["02 Jan 06 15:04 MST", "02 Jan 06 15:04 -0700",
   "Mon, 02 Jan 2006 15:04:05 MST", "Mon, 02 Jan 2006 15:04:05 -0700",
   "2006-01-02T15:04:05Z07:00", "2006-1-2"]

/-- The trial loop of `store.parseTime` over a layout list. -/
def parseTimeAux (tp : TimeParse) (accum : String) :
    List String → Except GoError Int
  | [] => .error (MkError ("Could not parse time: " ++ accum))
  | f :: rest =>
      match tp f accum with
      | some tm => .ok tm
      | none => parseTimeAux tp accum rest

/-- Model of `store.parseTime`: try each layout in order, first success wins. -/
def parseTime (tp : TimeParse) (accum : String) : Except GoError Int :=
  parseTimeAux tp accum timeFormats

/-- Model of `store.genericExtractArticle`: the token loop that builds one
`Article` from an `item`/`entry` body.  `accum` is the running
character-data accumulator, `rv` the article being built.  The fuel is
one more than the remaining tokens at every call site, so the
out-of-fuel branch never runs. -/
def genericExtractArticle (tp : TimeParse) (looksLikeAtom : Bool) :
    Nat → Decoder → String → Article → Except GoError (Article × Decoder)
  | 0, _, _, _ => .error (MkError ("out of fuel"))
  | fuel + 1, d, accum, rv =>
      match d.token with
      | .error e => .error e
      | .ok none => .error .eof
      | .ok (some (t, d')) =>
          match t with
          | .startElement n attrs =>
              if looksLikeAtom && n == "link" then
                if attrs.any (fun a => a.1 == "href") then
                  let u := attrs.foldl
                    (fun u a => if a.1 == "href" then a.2 else u) rv.url
                  genericExtractArticle tp looksLikeAtom fuel d' "" { rv with url := u }
                else .error (MkError ("Could not find HREF attribute for ENTRY LINK."))
              else genericExtractArticle tp looksLikeAtom fuel d' "" rv
          | .endElement n =>
              if n == "item" || n == "entry" then .ok (rv, d')
              else if n == "title" then
                genericExtractArticle tp looksLikeAtom fuel d' accum
                  { rv with title := rv.title ++ accum }
              else if n == "link" then
                genericExtractArticle tp looksLikeAtom fuel d' accum
                  (if looksLikeAtom then rv else { rv with url := accum })
              else if n == "pubDate" || n == "updated" || n == "date" then
                match parseTime tp accum with
                | .error e => .error e
                | .ok tm =>
                    genericExtractArticle tp looksLikeAtom fuel d' accum
                      { rv with pubDate := tm }
              else genericExtractArticle tp looksLikeAtom fuel d' accum rv
          | .charData s =>
              genericExtractArticle tp looksLikeAtom fuel d' (accum ++ s) rv

/-- Model of `store.feedParser`: walk the stream after the feed root, extract an
article for every `item` (RSS/RDF) or `entry` (Atom) start element and
append it to the link's article list; `io.EOF` ends the walk
successfully. -/
def feedParser (tp : TimeParse) :
    Nat → Decoder → LinkDetails → Except GoError LinkDetails
  | 0, _, _ => .error (MkError ("out of fuel"))
  | fuel + 1, d, link =>
      match d.token with
      | .ok none => .ok link
      | .error e => .error e
      | .ok (some (t, d')) =>
          match t with
          | .startElement n _ =>
              let looksLikeAtom := n == "entry"
              if n == "item" || looksLikeAtom then
                match genericExtractArticle tp looksLikeAtom
                    (d'.toks.length + 1) d' "" { url := "", title := "", pubDate := 0 } with
                | .error e => .error e
                | .ok (art, d'') =>
                    feedParser tp fuel d'' { link with articles := link.articles ++ [art] }
              else feedParser tp fuel d' link
          | _ => feedParser tp fuel d' link

/-- The type of `store.ArticleParser`, with the layout oracle made
explicit. -/
abbrev ArticleParser := TimeParse → Decoder → LinkDetails → Except GoError LinkDetails

/-- The function `feedParser` packaged at the type of `ArticleParser`, with its fuel
fixed to one more than the remaining tokens. -/
def feedParserTop : ArticleParser :=
  fun tp d link => feedParser tp (d.toks.length + 1) d link

/-- Model of `store.parseFunctionForFeed`: `rss`, `feed` and `RDF` roots all map
to the one generic parser; anything else has no parser. -/
def parseFunctionForFeed (root : String × List (String × String)) :
    Option ArticleParser :=
  let tag := root.1
  if tag == "rss" then some feedParserTop
  else if tag == "feed" then some feedParserTop
  else if tag == "RDF" then some feedParserTop
  else none

/-- One HTTP response, as the engine observes it: the status code, the
`Content-type` header values, the body viewed as the XML token stream
`xml.NewDecoder` would produce, and the body viewed through
`links.Extract` (the extracted links plus an optional extraction
error message). -/
structure FetchResponse where
  status : Nat
  contentType : List String
  xmlTokens : List XmlToken
  pageLinks : List Link
  extractErr : Option String
deriving Repr, DecidableEq

/-- The external world: `fetch` is `http.Client.Get` (an `error`
result is a network failure), `resolveAbs` is `forceAbsolute`'s
`url.Parse` + `ResolveReference` (none = parse failure), `timeParse`
is the `time.Parse` layout engine, and `now` is `time.Now()`. -/
structure Env where
  fetch : String → Except GoError FetchResponse
  resolveAbs : String → String → Option String
  timeParse : TimeParse
  now : Int

/-- Whether the pattern is a leading segment of the character list. -/
def startsWithChars : List Char → List Char → Bool
  | _, [] => true
  | [], _ :: _ => false
  | c :: cs, p :: ps => c == p && startsWithChars cs ps

/-- Whether the pattern occurs as a contiguous segment of the
character list. -/
def containsChars : List Char → List Char → Bool
  | s, pat =>
    if startsWithChars s pat then true
    else
      match s with
      | [] => false
      | _ :: cs => containsChars cs pat

/-- Model of `strings.Contains`: substring containment. -/
def strContains (s pat : String) : Bool := containsChars s.toList pat.toList

/-- Model of `strings.ToLower`. -/
def strToLower (s : String) : String := String.mk (s.data.map Char.toLower)

/-- Model of `strings.HasPrefix`. -/
def strStartsWith (s pre : String) : Bool := startsWithChars s.data pre.data

/-- Model of `strings.HasSuffix`. -/
def strHasSuffix (s suf : String) : Bool :=
  startsWithChars s.data.reverse suf.data.reverse

/-- Model of `store.feedHints`. -/
def feedHints : List String := ["rss", "atom", "feed"]

/-- Model of `store.urlSuffixes`. -/
def urlSuffixes : List String :=
  ["atom.xml", "rss.xml", "feed.xml", "feed=rss2", "feed=atom", "feed=rss", "feed"]

/-- Model of `store.namedLikeFeedLink`: the display title contains one of the
hints, or the lower-cased URL equals or ends with one of the
suffixes. -/
def namedLikeFeedLink (link : Link) : Bool :=
  let t := strToLower link.title
  if feedHints.any (fun cand => strContains t cand) then true
  else
    let u := strToLower link.url
    urlSuffixes.any (fun cand => u == cand || strHasSuffix u cand)

/-- Model of `store.contentTypes`. -/
def contentTypes : List String :=
  ["text/xml", "text/plain", "application/xml", "application/rss+xml",
   "application/atom+xml"]

/-- Model of `store.validFeedContentType`: some header value starts with one of
the known feed MIME prefixes. -/
def validFeedContentType (ct : List String) : Bool :=
  ct.any (fun c => contentTypes.any (fun pref => strStartsWith c pref))

/-- Model of `store.recognizedFeedFormat`: the body's first start element has a
parse function. -/
def recognizedFeedFormat (toks : List XmlToken) : Bool :=
  match firstStartElement ⟨toks, []⟩ with
  | .ok (start, _) => (parseFunctionForFeed start).isSome
  | .error _ => false

/-- Model of `store.makeFeedRequest`: resolve the request URL against the base,
issue the fetch, and treat any non-200 status as an error. -/
def makeFeedRequest (env : Env) (baseUrl reqUrl : String) :
    Except GoError FetchResponse :=
  match env.resolveAbs baseUrl reqUrl with
  | none => .error (.syntaxError ("url parse error"))
  | some absU =>
      match env.fetch absU with
      | .error e => .error e
      | .ok resp =>
          if resp.status == 200 then .ok resp
          else .error (MkError ("Bad response: " ++ toString resp.status))

/-- Model of `store.checkForFeedUrl`: probe one candidate; `some url` plays the
role of the Go `(url, true)` return. -/
def checkForFeedUrl (env : Env) (baseUrl : String) (link : Link) : Option String :=
  if !namedLikeFeedLink link then none
  else
    match makeFeedRequest env baseUrl link.url with
    | .error _ => none
    | .ok resp =>
        if validFeedContentType resp.contentType &&
            recognizedFeedFormat resp.xmlTokens then
          some link.url
        else none

/-- The candidate loop inside `store.findFeedUrl`: first accepted
candidate wins. -/
def scanLinksForFeed (env : Env) (baseUrl : String) : List Link → Option String
  | [] => none
  | l :: rest =>
      match checkForFeedUrl env baseUrl l with
      | some u => some u
      | none => scanLinksForFeed env baseUrl rest

/-- Model of `store.findFeedUrl`: fetch the base page, extract its links, scan
the candidates; network errors, 5xx statuses, extraction failure with
no partial links, and an empty scan are transient, any other status is
permanent. -/
def findFeedUrl (env : Env) (ld : LinkDetails) : Except GoError String :=
  match env.fetch ld.baseUrl with
  | .error e => .error (MkTransientError ("findFeedUrl: " ++ errString e))
  | .ok resp =>
      if resp.status == 200 then
        if resp.extractErr.isSome && resp.pageLinks.length == 0 then
          .error (MkTransientError ("findFeedUrl extract: " ++ resp.extractErr.getD ""))
        else
          match scanLinksForFeed env ld.baseUrl resp.pageLinks with
          | some u => .ok u
          | none =>
              .error (MkTransientError ("findFeedUrl: No link found in main page for " ++ ld.title))
      else if resp.status ≥ 500 then
        .error (MkTransientError ("findFeedUrl: Server error " ++ toString resp.status))
      else
        .error (MkError ("Error " ++ toString resp.status ++ " reading " ++ ld.baseUrl))

/-- The comparison `sort.Sort(link.Articles)` sorts by:
`Less i j = PubDate i < PubDate j`, i.e. ascending publish time. -/
def articleLE (a b : Article) : Prop := a.pubDate ≤ b.pubDate

instance : DecidableRel articleLE :=
  fun a b => inferInstanceAs (Decidable (a.pubDate ≤ b.pubDate))

instance : IsTotal Article articleLE := ⟨fun a b => Int.le_total a.pubDate b.pubDate⟩

instance : IsTrans Article articleLE := ⟨fun _ _ _ h h' => le_trans h h'⟩

/-- The `sort.Sort(link.Articles)` call: a sort ascending by publish
time (`ArticleArray.Less` compares `PubDate`). -/
def sortArticles (l : List Article) : List Article := List.insertionSort articleLE l

/-- The absolutization loop at the end of `checkForArticles`: resolve
every article URL against the base URL, failing on the first article
whose resolution fails. -/
def absolutizeArticles (env : Env) (baseUrl : String) :
    List Article → Except GoError (List Article)
  | [] => .ok []
  | a :: rest =>
      match env.resolveAbs baseUrl a.url with
      | none => .error (.syntaxError ("url parse error"))
      | some u =>
          match absolutizeArticles env baseUrl rest with
          | .error e => .error e
          | .ok rest' => .ok ({ a with url := u } :: rest')

/-- Model of `store.minCheckDuration` (300 seconds, in nanoseconds). -/
def minCheckDuration : Int := 300000000000

/-- Model of `store.checkForArticles`.  Note the source order: the article list
is cleared first, before the rate-limit check and before any network
or parse work. -/
def checkForArticles (env : Env) (link0 : LinkDetails) : LinkDetails :=
  let link := { link0 with articles := [] }
  let moment := env.now
  let timeSinceLast := moment - link.lastChecked
  if timeSinceLast < minCheckDuration then link
  else
    match makeFeedRequest env link.baseUrl link.feedUrl with
    | .error err => link.errorOccurred err
    | .ok resp =>
        match firstStartElement ⟨resp.xmlTokens, []⟩ with
        | .error err => link.errorOccurred err
        | .ok (start, d') =>
            match parseFunctionForFeed start with
            | none => link
            | some pfn =>
                match pfn env.timeParse d' link with
                | .error err => { link.errorOccurred err with articles := [] }
                | .ok link' =>
                    let arts :=
                      if link'.articles.length > 1 then sortArticles link'.articles
                      else link'.articles
                    match absolutizeArticles env link.baseUrl arts with
                    | .error err => { link'.errorOccurred err with articles := [] }
                    | .ok arts' =>
                        { link' with articles := arts', lastChecked := moment }

/-- One iteration of the `for stateNeedsCheck` loop in
`checkLink`: returns the updated record and the `stateNeedsCheck`
flag. -/
def checkLinkStep (env : Env) (ld : LinkDetails) : LinkDetails × Bool :=
  match ld.state with
  | .LinkTransientError =>
      if ld.feedUrl = "" then ({ ld with state := .LinkIsNew }, true)
      else ({ ld with state := .LinkHasFeed }, true)
  | .LinkIsNew =>
      match findFeedUrl env ld with
      | .error err =>
          if IsTransient err then (ld.errorOccurred err, false)
          else ({ ld with state := .LinkNoFeedFound }, false)
      | .ok feedUrl =>
          ({ ld with state := .LinkHasFeed, feedUrl := feedUrl }, true)
  | .LinkHasFeed => (checkForArticles env ld, false)
  | .LinkNoFeedFound => (ld, false)
  | .LinkIgnore => (ld, false)

/-- The `for stateNeedsCheck` loop, with fuel.  `stateRank` strictly
decreases on every continuing iteration, so fuel 3 is always enough
(`checkLink_fuel_stable` below). -/
def checkLinkLoop (env : Env) : Nat → LinkDetails → LinkDetails
  | 0, ld => ld
  | n + 1, ld =>
      match checkLinkStep env ld with
      | (ld', true) => checkLinkLoop env n ld'
      | (ld', false) => ld'

/-- Model of `checkLink` (in the main package): drive the record's state machine
until a pass makes no further state change. -/
def checkLink (env : Env) (ld : LinkDetails) : LinkDetails :=
  checkLinkLoop env 3 ld

/-- A bound on how many more continuing iterations the loop can make
from a given state. -/
def stateRank : LinkState → Nat
  | .LinkTransientError => 3
  | .LinkIsNew => 2
  | .LinkHasFeed => 1
  | .LinkNoFeedFound => 0
  | .LinkIgnore => 0

/-- Model of `LinkDetails.UnreadArticles`: the articles published strictly
after `lastRead`. -/
def UnreadArticles (ld : LinkDetails) : List Article :=
  ld.articles.filter (fun art => ld.lastRead < art.pubDate)

/-- Model of `LinkDetails.MarkAllAsRead`: fold the latest publish time (seeded
with the zero time) and advance `lastRead` to it when it is later. -/
def MarkAllAsRead (ld : LinkDetails) : LinkDetails :=
  let latest := ld.articles.foldl
    (fun latest art => if latest < art.pubDate then art.pubDate else latest) 0
  if ld.lastRead < latest then { ld with lastRead := latest } else ld

/-- Model of `store.LinkStore`: the record map (as an association list keyed by
`baseUrl`) plus the session's noted list. -/
structure LinkStore where
  links : List (String × LinkDetails)
  noted : List String
deriving Repr, DecidableEq

/-- Map lookup for the Go expression indexing `Links` by URL. -/
def LinkStore.lookup (ls : LinkStore) (url : String) : Option LinkDetails :=
  (ls.links.find? (fun p => p.1 == url)).map (fun p => p.2)

/-- The fresh record `InterestedIn` creates for an unseen URL; the
unnamed fields take Go zero values. -/
def newLinkDetails (url title : String) : LinkDetails :=
  { baseUrl := url, state := .LinkIsNew, feedUrl := "", lastError := none,
    title := title, lastRead := 0, lastChecked := 0, articles := [] }

/-- Model of `LinkStore.InterestedIn`: add a fresh record only when the URL is
unseen, and always append the URL to the session's noted list. -/
def InterestedIn (ls : LinkStore) (url title : String) : LinkStore :=
  match ls.lookup url with
  | some _ => { ls with noted := ls.noted ++ [url] }
  | none =>
      { links := ls.links ++ [(url, newLinkDetails url title)],
        noted := ls.noted ++ [url] }

/-- The submission loop of `LinkStore.CheckForUpdates`: the sequence of
records sent to the worker channel is `store.Links[base]` for each
noted base URL in order. -/
def submittedBatch (ls : LinkStore) : List (Option LinkDetails) :=
  ls.noted.map ls.lookup

/-- Which candidates `findFeedUrl`'s loop hands to `checkForFeedUrl`
past the name heuristic (i.e. which links get probed): matching links
in page order, stopping after the first accepted one. -/
def acceptsFeedCandidate (env : Env) (baseUrl : String) (l : Link) : Bool :=
  namedLikeFeedLink l &&
    match makeFeedRequest env baseUrl l.url with
    | .error _ => false
    | .ok resp =>
        validFeedContentType resp.contentType && recognizedFeedFormat resp.xmlTokens

/-- The probe trace of the candidate loop: every heuristic-matching
link is probed in order until one is accepted, after which the loop
returns and no further link is probed. -/
def probedLinks (env : Env) (baseUrl : String) : List Link → List Link
  | [] => []
  | l :: rest =>
      if namedLikeFeedLink l then
        if acceptsFeedCandidate env baseUrl l then [l]
        else l :: probedLinks env baseUrl rest
      else probedLinks env baseUrl rest

/-! Section: Concrete fixtures used by witnesses and counterexamples -/

/-- A layout oracle that fails on every input. -/
def tpNone : TimeParse := fun _ _ => none

/-- An environment whose every fetch fails with a network error. -/
def envNoNet (now : Int) : Env :=
  { fetch := fun _ => .error .eof, resolveAbs := fun _ r => some r,
    timeParse := tpNone, now := now }

/-- A concrete article. -/
def artA : Article := { url := "u", title := "a", pubDate := 1 }

/-- A record in `HasFeed` carrying one previously fetched article and a
zero `lastChecked`. -/
def ldHasFeedOld : LinkDetails :=
  { baseUrl := "http://x/", state := .LinkHasFeed, feedUrl := "http://x/f.xml",
    lastError := none, title := "t", lastRead := 0, lastChecked := 0,
    articles := [artA] }

/-- A record in `TransientError` with a previously recorded feed URL. -/
def ldTransient : LinkDetails :=
  { baseUrl := "http://x/", state := .LinkTransientError, feedUrl := "http://x/f.xml",
    lastError := none, title := "t", lastRead := 0, lastChecked := 0,
    articles := [] }

/-- A fresh record in `New`. -/
def ldNew : LinkDetails := newLinkDetails ("http://x/") ("t")

/-- A 200 response whose body's root element is `html` (no feed
parser exists for it). -/
def respHtml : FetchResponse :=
  { status := 200, contentType := ["text/html"],
    xmlTokens := [.startElement ("html") [], .endElement ("html")],
    pageLinks := [], extractErr := none }

/-- Environment serving `respHtml` everywhere, with the clock far past
the rate-limit window. -/
def envHtml : Env :=
  { fetch := fun _ => .ok respHtml, resolveAbs := fun _ r => some r,
    timeParse := tpNone, now := 1000000000000 }

/-- A 200 feed response whose single item has a mismatched close tag
(`<a>` closed by `</b>`). -/
def respBadItem : FetchResponse :=
  { status := 200, contentType := ["text/xml"],
    xmlTokens := [.startElement ("rss") [], .startElement ("item") [],
      .startElement ("a") [], .endElement ("b"), .endElement ("item"),
      .endElement ("rss")],
    pageLinks := [], extractErr := none }

/-- Environment serving `respBadItem` everywhere. -/
def envBadItem : Env :=
  { fetch := fun _ => .ok respBadItem, resolveAbs := fun _ r => some r,
    timeParse := tpNone, now := 1000000000000 }

/-- A layout oracle that parses exactly two bare dates with the
`2006-1-2` layout, as Go's `time.Parse` would. -/
def tpDates : TimeParse := fun layout s =>
  if layout == "2006-1-2" && s == "2001-1-1" then some 100
  else if layout == "2006-1-2" && s == "2002-2-2" then some 200
  else none

/-- An item body with two date elements, positioned inside `item`:
the tags `n1`/`n2` range over the date tag names. -/
def twoDateItem (n1 s1 n2 s2 : String) : Decoder :=
  ⟨[.startElement n1 [], .charData s1, .endElement n1,
    .startElement n2 [], .charData s2, .endElement n2,
    .endElement ("item")], ["item"]⟩

/-- The date tag names recognized by `genericExtractArticle`. -/
def dateTags : List String := ["pubDate", "updated", "date"]

/-- A 200 feed response with a recognized root and no items. -/
def respRssEmpty : FetchResponse :=
  { status := 200, contentType := ["text/xml"],
    xmlTokens := [.startElement ("rss") [], .endElement ("rss")],
    pageLinks := [], extractErr := none }

/-- Environment serving `respRssEmpty` everywhere. -/
def envRss : Env :=
  { fetch := fun _ => .ok respRssEmpty, resolveAbs := fun _ r => some r,
    timeParse := tpNone, now := 1000000000000 }

/-- Response for the C1 counterexample: the base page's body extracts
to one feed-titled link with an EMPTY URL, and the same body (the probe
resolves the empty URL back to the base page) validates as a feed. -/
def respSelfFeed : FetchResponse :=
  { status := 200, contentType := ["text/xml"],
    xmlTokens := [.startElement ("rss") [], .endElement ("rss")],
    pageLinks := [{ title := "rss", url := "" }], extractErr := none }

/-- Environment serving `respSelfFeed` everywhere; `resolveAbs`
resolves the empty reference to the base URL, as
`url.ResolveReference` does. -/
def envSelfFeed : Env :=
  { fetch := fun _ => .ok respSelfFeed,
    resolveAbs := fun base r => if r == "" then some base else some r,
    timeParse := tpNone, now := 1000000000000 }

/-- Two feed-looking page links; with `envRss` both would validate,
so the first is accepted. -/
def linkRss1 : Link := { title := "RSS Feed", url := "http://x/rss.xml" }

/-- A second feed-looking page link. -/
def linkRss2 : Link := { title := "Atom Feed", url := "http://x/atom.xml" }

/-- An article with only a publish time, for scenario records. -/
def mkArt (t : Int) : Article := { url := "", title := "", pubDate := t }

/-- The unread-computation scenario record: `lastRead = T`, article
publish times `T-1, T, T+1, T+2`. -/
def scenarioRecord (T : Int) : LinkDetails :=
  { baseUrl := "b", state := .LinkHasFeed, feedUrl := "f", lastError := none,
    title := "t", lastRead := T, lastChecked := 0,
    articles := [mkArt (T-1), mkArt T, mkArt (T+1), mkArt (T+2)] }

/-- A one-record store fixture. -/
def lsFix : LinkStore :=
  { links := [("u", newLinkDetails ("u") ("t"))], noted := [] }


/-! Section: Helper lemmas -/

theorem checkLinkLoop_step_true (env : Env) (n : Nat) (ld ld' : LinkDetails)
    (h : checkLinkStep env ld = (ld', true)) :
    checkLinkLoop env (n + 1) ld = checkLinkLoop env n ld' := by
  simp [checkLinkLoop, h]

theorem checkLinkLoop_step_false (env : Env) (n : Nat) (ld ld' : LinkDetails)
    (h : checkLinkStep env ld = (ld', false)) :
    checkLinkLoop env (n + 1) ld = ld' := by
  simp [checkLinkLoop, h]

theorem checkLinkStep_rank (env : Env) (ld ld' : LinkDetails)
    (h : checkLinkStep env ld = (ld', true)) :
    stateRank ld'.state < stateRank ld.state := by
  cases hs : ld.state with
  | LinkTransientError =>
      rw [checkLinkStep, hs] at h
      by_cases hf : ld.feedUrl = ""
      · simp [hf] at h
        simp [← h, stateRank, hs]
      · simp [hf] at h
        simp [← h, stateRank, hs]
  | LinkIsNew =>
      rw [checkLinkStep, hs] at h
      cases hff : findFeedUrl env ld with
      | error e =>
          rw [hff] at h
          by_cases ht : IsTransient e = true <;> simp [ht] at h
      | ok u =>
          rw [hff] at h
          simp at h
          simp [← h, stateRank, hs]
  | LinkHasFeed => rw [checkLinkStep, hs] at h; simp at h
  | LinkNoFeedFound => rw [checkLinkStep, hs] at h; simp at h
  | LinkIgnore => rw [checkLinkStep, hs] at h; simp at h

theorem rankZeroStep (env : Env) (ld : LinkDetails) (h : stateRank ld.state = 0) :
    checkLinkStep env ld = (ld, false) := by
  cases hs : ld.state <;> rw [hs, stateRank] at h <;> first
    | exact absurd h (by decide)
    | rw [checkLinkStep, hs]

theorem checkLinkLoop_stable (env : Env) :
    ∀ n m ld, stateRank ld.state ≤ n → stateRank ld.state ≤ m →
      checkLinkLoop env n ld = checkLinkLoop env m ld := by
  intro n
  induction n with
  | zero =>
      intro m ld h0 _
      have hstep := rankZeroStep env ld (Nat.le_zero.mp h0)
      cases m with
      | zero => rfl
      | succ m' => rw [checkLinkLoop_step_false env m' ld ld hstep]; rfl
  | succ n' ih =>
      intro m ld hn hm
      cases m with
      | zero =>
          have hstep := rankZeroStep env ld (Nat.le_zero.mp hm)
          rw [checkLinkLoop_step_false env n' ld ld hstep]; rfl
      | succ m' =>
          cases hstep : checkLinkStep env ld with
          | mk ld' flag =>
              cases flag with
              | false =>
                  rw [checkLinkLoop_step_false env n' ld ld' hstep,
                    checkLinkLoop_step_false env m' ld ld' hstep]
              | true =>
                  have hlt := checkLinkStep_rank env ld ld' hstep
                  rw [checkLinkLoop_step_true env n' ld ld' hstep,
                    checkLinkLoop_step_true env m' ld ld' hstep]
                  exact ih m' ld' (by omega) (by omega)

theorem stateRank_le_three (s : LinkState) : stateRank s ≤ 3 := by
  cases s <;> simp [stateRank]

theorem checkLink_eq_loop (env : Env) (ld : LinkDetails) (n : Nat) (h : 3 ≤ n) :
    checkLinkLoop env n ld = checkLink env ld := by
  rw [checkLink]
  exact checkLinkLoop_stable env n 3 ld
    (le_trans (stateRank_le_three ld.state) h) (stateRank_le_three ld.state)

theorem feedParser_shape (tp : TimeParse) :
    ∀ fuel d link link', feedParser tp fuel d link = .ok link' →
      ∃ arts, link' = { link with articles := arts } := by
  intro fuel
  induction fuel with
  | zero => intro d link link' h; rw [feedParser] at h; exact absurd h (by simp)
  | succ n ih =>
      intro d link link' h
      rw [feedParser] at h
      cases htok : d.token with
      | error e => rw [htok] at h; exact absurd h (by simp)
      | ok o =>
          rw [htok] at h
          cases o with
          | none =>
              simp at h
              exact ⟨link.articles, by rw [← h]⟩
          | some td =>
              cases td with
              | mk t d' =>
                  cases t with
                  | startElement nm attrs =>
                      simp only at h
                      by_cases hn : (nm == "item" || nm == "entry") = true
                      · rw [if_pos hn] at h
                        cases hex : genericExtractArticle tp (nm == "entry")
                            (d'.toks.length + 1) d' "" { url := "", title := "", pubDate := 0 } with
                        | error e => rw [hex] at h; exact absurd h (by simp)
                        | ok ad =>
                            rw [hex] at h
                            obtain ⟨arts, ha⟩ := ih ad.2 _ link' h
                            exact ⟨arts, by rw [ha]⟩
                      · rw [if_neg hn] at h
                        exact ih d' link link' h
                  | endElement nm => exact ih d' link link' h
                  | charData s => exact ih d' link link' h

theorem feedParserTop_shape (tp : TimeParse) (d : Decoder) (link link' : LinkDetails)
    (h : feedParserTop tp d link = .ok link') :
    ∃ arts, link' = { link with articles := arts } :=
  feedParser_shape tp _ d link link' h

theorem parseFunctionForFeed_eq (root : String × List (String × String))
    (pfn : ArticleParser) (h : parseFunctionForFeed root = some pfn) :
    pfn = feedParserTop := by
  rw [parseFunctionForFeed] at h
  split_ifs at h <;> simp_all

theorem checkForArticles_feedUrl (env : Env) (ld : LinkDetails) :
    (checkForArticles env ld).feedUrl = ld.feedUrl := by
  rw [checkForArticles]
  simp only [LinkDetails.errorOccurred]
  split
  · rfl
  · split
    · rfl
    · split
      · rfl
      · split
        · rfl
        · rename_i start d' pfn hpfn
          split
          · rfl
          · rename_i link' hok
            have hp := parseFunctionForFeed_eq _ _ hpfn
            rw [hp] at hok
            obtain ⟨arts, ha⟩ := feedParserTop_shape _ _ _ _ hok
            subst ha
            split
            · rfl
            · rfl

theorem checkForArticles_state (env : Env) (ld : LinkDetails) :
    (checkForArticles env ld).state = ld.state ∨
    (checkForArticles env ld).state = .LinkTransientError := by
  rw [checkForArticles]
  simp only [LinkDetails.errorOccurred]
  split
  · left; rfl
  · split
    · right; rfl
    · split
      · right; rfl
      · split
        · left; rfl
        · rename_i start d' pfn hpfn
          split
          · right; rfl
          · rename_i link' hok
            have hp := parseFunctionForFeed_eq _ _ hpfn
            rw [hp] at hok
            obtain ⟨arts, ha⟩ := feedParserTop_shape _ _ _ _ hok
            subst ha
            split
            · right; rfl
            · left; rfl

theorem absolutizeArticles_pubDates (env : Env) (b : String) :
    ∀ l l', absolutizeArticles env b l = .ok l' →
      l'.map (fun a => a.pubDate) = l.map (fun a => a.pubDate) := by
  intro l
  induction l with
  | nil =>
      intro l' h
      rw [absolutizeArticles] at h
      simp at h
      simp [← h]
  | cons a rest ih =>
      intro l' h
      rw [absolutizeArticles] at h
      cases hr : env.resolveAbs b a.url with
      | none => rw [hr] at h; exact absurd h (by simp)
      | some u =>
          rw [hr] at h
          cases hrest : absolutizeArticles env b rest with
          | error e => rw [hrest] at h; exact absurd h (by simp)
          | ok rest' =>
              rw [hrest] at h
              simp at h
              simp [← h, ih rest' hrest]

theorem sorted_articles_iff (l : List Article) :
    List.Sorted articleLE l ↔
      List.Pairwise (fun x y : Int => x ≤ y) (l.map (fun a => a.pubDate)) := by
  rw [List.pairwise_map]
  exact Iff.rfl

theorem sortArticles_sorted (l : List Article) :
    List.Sorted articleLE (sortArticles l) :=
  List.sorted_insertionSort articleLE l

theorem sorted_short (l : List Article) (h : ¬ l.length > 1) :
    List.Sorted articleLE l := by
  cases l with
  | nil => exact List.sorted_nil
  | cons a t =>
      cases t with
      | nil => exact List.sorted_singleton a
      | cons b t' => simp at h

theorem checkForArticles_sorted (env : Env) (ld : LinkDetails) :
    List.Sorted articleLE (checkForArticles env ld).articles := by
  rw [checkForArticles]
  simp only [LinkDetails.errorOccurred]
  split
  · exact List.sorted_nil
  · split
    · exact List.sorted_nil
    · split
      · exact List.sorted_nil
      · split
        · exact List.sorted_nil
        · rename_i start d' pfn hpfn
          split
          · exact List.sorted_nil
          · rename_i link' hok
            split
            · exact List.sorted_nil
            · rename_i arts' habs
              have h1 : List.Sorted articleLE
                  (if link'.articles.length > 1 then sortArticles link'.articles
                   else link'.articles) := by
                split
                · exact sortArticles_sorted link'.articles
                · rename_i hlen
                  exact sorted_short link'.articles hlen
              have h2 := absolutizeArticles_pubDates _ _ _ _ habs
              rw [sorted_articles_iff] at h1 ⊢
              rw [h2]
              exact h1

theorem checkForArticles_articles_independent (env : Env) (ld : LinkDetails)
    (a b : List Article) :
    checkForArticles env { ld with articles := a } =
    checkForArticles env { ld with articles := b } := rfl

theorem checkForArticles_rate_limited (env : Env) (ld : LinkDetails)
    (h : env.now - ld.lastChecked < minCheckDuration) :
    checkForArticles env ld = { ld with articles := [] } := by
  rw [checkForArticles]
  exact if_pos h

theorem checkForFeedUrl_eq (env : Env) (b : String) (l : Link) :
    checkForFeedUrl env b l =
      if acceptsFeedCandidate env b l then some l.url else none := by
  rw [checkForFeedUrl, acceptsFeedCandidate]
  by_cases hn : namedLikeFeedLink l = true
  · simp only [hn, Bool.not_true, Bool.true_and]
    cases hr : makeFeedRequest env b l.url with
    | error e => simp
    | ok resp =>
        by_cases hv : (validFeedContentType resp.contentType &&
            recognizedFeedFormat resp.xmlTokens) = true
        · simp [hv]
        · simp [hv]
  · simp only [Bool.not_eq_true] at hn
    simp [hn]

theorem scanLinksForFeed_eq (env : Env) (b : String) :
    ∀ links, scanLinksForFeed env b links =
      (links.find? (fun l => acceptsFeedCandidate env b l)).map (fun l => l.url) := by
  intro links
  induction links with
  | nil => simp [scanLinksForFeed]
  | cons l rest ih =>
      rw [scanLinksForFeed, checkForFeedUrl_eq]
      by_cases ha : acceptsFeedCandidate env b l = true
      · simp [ha]
      · simp only [Bool.not_eq_true] at ha
        simp [ha, ih]

theorem probedLinks_named (env : Env) (b : String) :
    ∀ links l, l ∈ probedLinks env b links → namedLikeFeedLink l = true := by
  intro links
  induction links with
  | nil => intro l h; simp [probedLinks] at h
  | cons x rest ih =>
      intro l h
      rw [probedLinks] at h
      by_cases hn : namedLikeFeedLink x = true
      · rw [if_pos hn] at h
        by_cases ha : acceptsFeedCandidate env b x = true
        · rw [if_pos ha] at h
          simp at h
          rw [h]; exact hn
        · rw [if_neg ha] at h
          rcases List.mem_cons.mp h with h1 | h2
          · rw [h1]; exact hn
          · exact ih l h2
      · rw [if_neg hn] at h
        exact ih l h

theorem probedLinks_all (env : Env) (b : String) :
    ∀ links, scanLinksForFeed env b links = none →
      probedLinks env b links = links.filter (fun l => namedLikeFeedLink l) := by
  intro links
  induction links with
  | nil => intro _; simp [probedLinks]
  | cons x rest ih =>
      intro hnone
      rw [scanLinksForFeed, checkForFeedUrl_eq] at hnone
      by_cases ha : acceptsFeedCandidate env b x = true
      · rw [if_pos ha] at hnone; exact absurd hnone (by simp)
      · rw [if_neg ha] at hnone
        rw [probedLinks]
        by_cases hn : namedLikeFeedLink x = true
        · rw [if_pos hn, if_neg ha, ih hnone]
          simp [hn]
        · rw [if_neg hn, ih hnone]
          simp only [Bool.not_eq_true] at hn
          simp [hn]

theorem findFeedUrl_ok (env : Env) (ld : LinkDetails) (u : String)
    (h : findFeedUrl env ld = .ok u) :
    ∃ resp l, env.fetch ld.baseUrl = .ok resp ∧ l ∈ resp.pageLinks ∧
      acceptsFeedCandidate env ld.baseUrl l = true ∧ u = l.url := by
  rw [findFeedUrl] at h
  cases hf : env.fetch ld.baseUrl with
  | error e => rw [hf] at h; exact absurd h (by simp)
  | ok resp =>
      rw [hf] at h
      dsimp only at h
      by_cases h200 : resp.status == 200
      · rw [if_pos h200] at h
        by_cases hex : (resp.extractErr.isSome && resp.pageLinks.length == 0) = true
        · rw [if_pos hex] at h; exact absurd h (by simp)
        · rw [if_neg hex] at h
          cases hscan : scanLinksForFeed env ld.baseUrl resp.pageLinks with
          | none => rw [hscan] at h; exact absurd h (by simp)
          | some u' =>
              rw [hscan] at h
              simp at h
              rw [scanLinksForFeed_eq] at hscan
              rcases Option.map_eq_some'.mp hscan with ⟨l, hfind, hurl⟩
              refine ⟨resp, l, rfl, List.mem_of_find?_eq_some hfind, ?_, ?_⟩
              · exact List.find?_some hfind
              · rw [← h, ← hurl]
      · rw [if_neg h200] at h
        by_cases h5 : resp.status ≥ 500
        · rw [if_pos h5] at h; exact absurd h (by simp)
        · rw [if_neg h5] at h; exact absurd h (by simp)

theorem token_error_not_transient (d : Decoder) (e : GoError)
    (h : Decoder.token d = .error e) : IsTransient e = false := by
  rcases d with ⟨toks, stack⟩
  cases toks with
  | nil =>
      cases stack with
      | nil => simp [Decoder.token] at h
      | cons a t =>
          simp only [Decoder.token] at h
          simp at h
          simp [← h, IsTransient]
  | cons tk rest =>
      cases tk with
      | startElement n attrs => simp [Decoder.token] at h
      | endElement n =>
          simp only [Decoder.token] at h
          cases stack with
          | nil =>
              simp at h
              simp [← h, IsTransient]
          | cons top st' =>
              by_cases he : top == n
              · simp [he] at h
              · simp [he] at h
                simp [← h, IsTransient]
      | charData s => simp [Decoder.token] at h

theorem parseTimeAux_err (tp : TimeParse) (accum : String) :
    ∀ fs e, parseTimeAux tp accum fs = .error e →
      e = MkError ("Could not parse time: " ++ accum) := by
  intro fs
  induction fs with
  | nil =>
      intro e h
      simp only [parseTimeAux] at h
      simp at h
      rw [h]
  | cons f rest ih =>
      intro e h
      simp only [parseTimeAux] at h
      cases htp : tp f accum with
      | none => rw [htp] at h; exact ih e h
      | some tm => rw [htp] at h; simp at h

theorem parseTimeAux_findSome (tp : TimeParse) (accum : String) :
    ∀ fs, parseTimeAux tp accum fs =
      (match fs.findSome? (fun f => tp f accum) with
       | some t => .ok t
       | none => .error (MkError ("Could not parse time: " ++ accum))) := by
  intro fs
  induction fs with
  | nil => simp [parseTimeAux, List.findSome?]
  | cons f rest ih =>
      simp only [parseTimeAux, List.findSome?_cons]
      cases htp : tp f accum with
      | none => simp [ih]
      | some tm => simp

theorem genericExtract_err_not_transient (tp : TimeParse) (atom : Bool) :
    ∀ fuel d accum rv e,
      genericExtractArticle tp atom fuel d accum rv = .error e →
      IsTransient e = false := by
  intro fuel
  induction fuel with
  | zero =>
      intro d accum rv e h
      simp only [genericExtractArticle] at h
      simp at h
      simp [← h, MkError, IsTransient]
  | succ n ih =>
      intro d accum rv e h
      simp only [genericExtractArticle] at h
      cases htok : d.token with
      | error e' =>
          rw [htok] at h
          simp at h
          rw [← h]
          exact token_error_not_transient d e' htok
      | ok o =>
          rw [htok] at h
          cases o with
          | none =>
              simp at h
              simp [← h, IsTransient]
          | some td =>
              rcases td with ⟨t, d'⟩
              dsimp only at h
              cases t with
              | startElement nm attrs =>
                  dsimp only at h
                  by_cases hal : (atom && nm == "link") = true
                  · rw [if_pos hal] at h
                    by_cases hhr : (attrs.any (fun a => a.1 == "href")) = true
                    · rw [if_pos hhr] at h
                      exact ih _ _ _ _ h
                    · rw [if_neg hhr] at h
                      simp at h
                      simp [← h, MkError, IsTransient]
                  · rw [if_neg hal] at h
                    exact ih _ _ _ _ h
              | endElement nm =>
                  dsimp only at h
                  by_cases hie : (nm == "item" || nm == "entry") = true
                  · rw [if_pos hie] at h; simp at h
                  · rw [if_neg hie] at h
                    by_cases hti : (nm == "title") = true
                    · rw [if_pos hti] at h
                      exact ih _ _ _ _ h
                    · rw [if_neg hti] at h
                      by_cases hli : (nm == "link") = true
                      · rw [if_pos hli] at h
                        exact ih _ _ _ _ h
                      · rw [if_neg hli] at h
                        by_cases hda : (nm == "pubDate" || nm == "updated" || nm == "date") = true
                        · rw [if_pos hda] at h
                          cases hpt : parseTime tp accum with
                          | error e' =>
                              rw [hpt] at h
                              simp at h
                              rw [← h]
                              have := parseTimeAux_err tp accum timeFormats e' hpt
                              simp [this, MkError, IsTransient]
                          | ok tm =>
                              rw [hpt] at h
                              exact ih _ _ _ _ h
                        · rw [if_neg hda] at h
                          exact ih _ _ _ _ h
              | charData s => dsimp only at h; exact ih _ _ _ _ h

theorem feedParser_err_not_transient (tp : TimeParse) :
    ∀ fuel d link e, feedParser tp fuel d link = .error e →
      IsTransient e = false := by
  intro fuel
  induction fuel with
  | zero =>
      intro d link e h
      simp only [feedParser] at h
      simp at h
      simp [← h, MkError, IsTransient]
  | succ n ih =>
      intro d link e h
      simp only [feedParser] at h
      cases htok : d.token with
      | error e' =>
          rw [htok] at h
          simp at h
          rw [← h]
          exact token_error_not_transient d e' htok
      | ok o =>
          rw [htok] at h
          cases o with
          | none => simp at h
          | some td =>
              rcases td with ⟨t, d'⟩
              dsimp only at h
              cases t with
              | startElement nm attrs =>
                  dsimp only at h
                  by_cases hie : (nm == "item" || nm == "entry") = true
                  · rw [if_pos hie] at h
                    cases hex : genericExtractArticle tp (nm == "entry")
                        (d'.toks.length + 1) d' "" { url := "", title := "", pubDate := 0 } with
                    | error e' =>
                        rw [hex] at h
                        simp at h
                        rw [← h]
                        exact genericExtract_err_not_transient tp _ _ _ _ _ _ hex
                    | ok ad =>
                        rw [hex] at h
                        exact ih _ _ _ h
                  · rw [if_neg hie] at h
                    exact ih _ _ _ h
              | endElement nm => dsimp only at h; exact ih _ _ _ h
              | charData s => dsimp only at h; exact ih _ _ _ h

theorem checkLinkStep_sorted (env : Env) (ld : LinkDetails)
    (h : List.Sorted articleLE ld.articles) :
    List.Sorted articleLE (checkLinkStep env ld).1.articles := by
  cases hs : ld.state with
  | LinkTransientError =>
      rw [checkLinkStep, hs]
      by_cases hf : ld.feedUrl = ""
      · rw [if_pos hf]; exact h
      · rw [if_neg hf]; exact h
  | LinkIsNew =>
      rw [checkLinkStep, hs]
      cases hff : findFeedUrl env ld with
      | error e =>
          dsimp only
          by_cases ht : IsTransient e = true
          · rw [if_pos ht]; exact h
          · rw [if_neg ht]; exact h
      | ok u => exact h
  | LinkHasFeed => rw [checkLinkStep, hs]; exact checkForArticles_sorted env ld
  | LinkNoFeedFound => rw [checkLinkStep, hs]; exact h
  | LinkIgnore => rw [checkLinkStep, hs]; exact h

theorem checkLinkLoop_sorted (env : Env) :
    ∀ n ld, List.Sorted articleLE ld.articles →
      List.Sorted articleLE (checkLinkLoop env n ld).articles := by
  intro n
  induction n with
  | zero => intro ld h; exact h
  | succ n' ih =>
      intro ld h
      cases hstep : checkLinkStep env ld with
      | mk ld' flag =>
          have hs' : List.Sorted articleLE ld'.articles := by
            have := checkLinkStep_sorted env ld h
            rw [hstep] at this
            exact this
          cases flag with
          | true => rw [checkLinkLoop_step_true env n' ld ld' hstep]; exact ih ld' hs'
          | false => rw [checkLinkLoop_step_false env n' ld ld' hstep]; exact hs'

theorem checkLinkStep_inv (env : Env) (ld : LinkDetails)
    (hlinks : ∀ u resp, env.fetch u = .ok resp → ∀ l ∈ resp.pageLinks, l.url ≠ "")
    (hinv : ld.state = .LinkHasFeed → ld.feedUrl ≠ "") :
    (checkLinkStep env ld).1.state = .LinkHasFeed →
      (checkLinkStep env ld).1.feedUrl ≠ "" := by
  cases hs : ld.state with
  | LinkTransientError =>
      rw [checkLinkStep, hs]
      by_cases hf : ld.feedUrl = ""
      · rw [if_pos hf]; intro hc; simp at hc
      · rw [if_neg hf]; intro _; exact hf
  | LinkIsNew =>
      rw [checkLinkStep, hs]
      cases hff : findFeedUrl env ld with
      | error e =>
          dsimp only
          by_cases ht : IsTransient e = true
          · rw [if_pos ht]; intro hc; simp [LinkDetails.errorOccurred] at hc
          · rw [if_neg ht]; intro hc; simp at hc
      | ok u =>
          dsimp only
          intro _
          obtain ⟨resp, l, hfe, hmem, _, hu⟩ := findFeedUrl_ok env ld u hff
          have hne := hlinks _ _ hfe l hmem
          simpa [hu] using hne
  | LinkHasFeed =>
      rw [checkLinkStep, hs]
      dsimp only
      intro hS
      rcases checkForArticles_state env ld with h1 | h1
      · rw [checkForArticles_feedUrl]
        exact hinv (h1.symm.trans hS)
      · rw [h1] at hS; simp at hS
  | LinkNoFeedFound =>
      rw [checkLinkStep, hs]
      intro hc
      rw [show (ld, false).1.state = ld.state from rfl, hs] at hc
      simp at hc
  | LinkIgnore =>
      rw [checkLinkStep, hs]
      intro hc
      rw [show (ld, false).1.state = ld.state from rfl, hs] at hc
      simp at hc

theorem checkLinkLoop_inv (env : Env)
    (hlinks : ∀ u resp, env.fetch u = .ok resp → ∀ l ∈ resp.pageLinks, l.url ≠ "") :
    ∀ n ld, (ld.state = .LinkHasFeed → ld.feedUrl ≠ "") →
      ((checkLinkLoop env n ld).state = .LinkHasFeed →
        (checkLinkLoop env n ld).feedUrl ≠ "") := by
  intro n
  induction n with
  | zero => intro ld h; exact h
  | succ n' ih =>
      intro ld h
      cases hstep : checkLinkStep env ld with
      | mk ld' flag =>
          have hs' : ld'.state = .LinkHasFeed → ld'.feedUrl ≠ "" := by
            have := checkLinkStep_inv env ld hlinks h
            rw [hstep] at this
            exact this
          cases flag with
          | true => rw [checkLinkLoop_step_true env n' ld ld' hstep]; exact ih ld' hs'
          | false => rw [checkLinkLoop_step_false env n' ld ld' hstep]; exact hs'

/-! Section: Claim C2 -/

/-- Claim C2 (confirmed): for a record in `TransientError`, one pass of
`checkLink` moves it to `HasFeed` when a feed URL was previously
recorded — keeping that feedUrl and running only the article refresh,
not discovery — and otherwise moves it to `New`; in both cases the
`stateNeedsCheck` flag is set so the new state is re-evaluated
immediately within the same pass. -/
theorem C2_transient_recovery (env : Env) (ld : LinkDetails)
    (h : ld.state = .LinkTransientError) :
    (ld.feedUrl ≠ "" →
      checkLinkStep env ld = ({ ld with state := .LinkHasFeed }, true) ∧
      checkLink env ld = checkForArticles env { ld with state := .LinkHasFeed } ∧
      (checkLink env ld).feedUrl = ld.feedUrl) ∧
    (ld.feedUrl = "" →
      checkLinkStep env ld = ({ ld with state := .LinkIsNew }, true) ∧
      checkLink env ld = checkLink env { ld with state := .LinkIsNew }) := by
  constructor
  · intro hne
    have hstep : checkLinkStep env ld = ({ ld with state := .LinkHasFeed }, true) := by
      rw [checkLinkStep, h, if_neg hne]
    have hstep2 : checkLinkStep env { ld with state := .LinkHasFeed } =
        (checkForArticles env { ld with state := .LinkHasFeed }, false) := rfl
    have he : checkLink env ld = checkForArticles env { ld with state := .LinkHasFeed } := by
      rw [checkLink, checkLinkLoop_step_true env 2 _ _ hstep,
        checkLinkLoop_step_false env 1 _ _ hstep2]
    refine ⟨hstep, he, ?_⟩
    rw [he, checkForArticles_feedUrl]
  · intro he0
    have hstep : checkLinkStep env ld = ({ ld with state := .LinkIsNew }, true) := by
      rw [checkLinkStep, h, if_pos he0]
    refine ⟨hstep, ?_⟩
    rw [checkLink, checkLinkLoop_step_true env 2 _ _ hstep, checkLink]
    exact checkLinkLoop_stable env 2 3 _ (by simp [stateRank]) (by simp [stateRank])

/-- Witness for C2 at a concrete record with a recorded feed URL. -/
theorem C2_transient_recovery_w :
    checkLink (envNoNet 0) ldTransient =
      checkForArticles (envNoNet 0) { ldTransient with state := .LinkHasFeed } :=
  ((C2_transient_recovery (envNoNet 0) ldTransient rfl).1 (by decide)).2.1

/-! Section: Claim C3 -/

/-- Claim C3 counterexample: a rate-limited refresh is NOT a no-op on
the articles list — `checkForArticles` clears `link.Articles` before
the rate-limit check, so a record holding one article loses it even
though less than 300s elapsed since `lastChecked`. -/
theorem C3_rate_limit_counterexample :
    (checkForArticles (envNoNet 5) ldHasFeedOld).articles ≠ ldHasFeedOld.articles := by
  decide

/-- Claim C3 (corrected): a refresh within the minimum check interval
leaves `lastChecked`, `state` and `lastError` unchanged and raises no
error, but it resets the articles list to empty (rather than leaving
it unchanged); running the refresh twice within the interval therefore
changes nothing beyond that first clearing. -/
theorem C3_rate_limit_amended (env : Env) (ld : LinkDetails)
    (h : env.now - ld.lastChecked < minCheckDuration) :
    checkForArticles env ld = { ld with articles := [] } ∧
    checkForArticles env (checkForArticles env ld) = checkForArticles env ld := by
  have h1 := checkForArticles_rate_limited env ld h
  refine ⟨h1, ?_⟩
  rw [h1, checkForArticles_rate_limited env { ld with articles := [] } h]

/-- Witness for C3 at a concrete rate-limited record. -/
theorem C3_rate_limit_amended_w :
    checkForArticles (envNoNet 5) ldHasFeedOld = { ldHasFeedOld with articles := [] } :=
  (C3_rate_limit_amended (envNoNet 5) ldHasFeedOld (by decide)).1

/-! Section: Claim C4 -/

/-- Claim C4 counterexample: on a 200 response whose root element is
unrecognized (`html`), the refresh does NOT leave the record fully
unchanged — the articles list is cleared at the top of
`checkForArticles` — although state and lastError are indeed
untouched. -/
theorem C4_unrecognized_root_counterexample :
    (checkForArticles envHtml ldHasFeedOld).articles ≠ ldHasFeedOld.articles ∧
    (checkForArticles envHtml ldHasFeedOld).state = ldHasFeedOld.state ∧
    (checkForArticles envHtml ldHasFeedOld).lastError = ldHasFeedOld.lastError := by
  decide

/-- Claim C4 (corrected): when the fetch succeeds with status 200 but
the body's first start element has no parse function, the refresh
raises no error and leaves `state`, `lastError` and `lastChecked` as
they were — but the articles list is reset to empty, not left as it
was before the call. -/
theorem C4_unrecognized_root_amended (env : Env) (ld : LinkDetails)
    (resp : FetchResponse) (start : String × List (String × String)) (d' : Decoder)
    (hrate : minCheckDuration ≤ env.now - ld.lastChecked)
    (hreq : makeFeedRequest env ld.baseUrl ld.feedUrl = .ok resp)
    (hfirst : firstStartElement ⟨resp.xmlTokens, []⟩ = .ok (start, d'))
    (hpfn : parseFunctionForFeed start = none) :
    checkForArticles env ld = { ld with articles := [] } := by
  rw [checkForArticles]
  dsimp only
  rw [if_neg (not_lt.mpr hrate), hreq]
  dsimp only
  rw [hfirst]
  dsimp only
  rw [hpfn]

/-- Witness for C4 at a concrete `html`-rooted 200 response. -/
theorem C4_unrecognized_root_amended_w :
    checkForArticles envHtml ldHasFeedOld = { ldHasFeedOld with articles := [] } :=
  C4_unrecognized_root_amended envHtml ldHasFeedOld respHtml ("html", [])
    ⟨[.endElement ("html")], ["html"]⟩ (by decide) rfl rfl rfl

/-! Section: Claim C5 -/

/-- Claim C5 counterexample: a feed item with a mismatched close tag
(`<a>` closed by `</b>`) does yield a permanent parse error, but the
record's prior articles list is NOT left untouched — it is cleared. -/
theorem C5_mismatched_close_counterexample :
    (checkForArticles envBadItem ldHasFeedOld).articles ≠ ldHasFeedOld.articles ∧
    (checkForArticles envBadItem ldHasFeedOld).state = .LinkTransientError := by
  decide

/-- Claim C5 (corrected): when the generic parser fails on the fetched
body (as it does on an item with a mismatched close tag), the refresh
fails with that error — which is never transient, i.e. it is a
permanent parse error — records it, and clears the articles list to
empty: the prior list is discarded, not left untouched. -/
theorem C5_mismatched_close_amended (env : Env) (ld : LinkDetails)
    (resp : FetchResponse) (start : String × List (String × String)) (d' : Decoder)
    (pfn : ArticleParser) (e : GoError)
    (hrate : minCheckDuration ≤ env.now - ld.lastChecked)
    (hreq : makeFeedRequest env ld.baseUrl ld.feedUrl = .ok resp)
    (hfirst : firstStartElement ⟨resp.xmlTokens, []⟩ = .ok (start, d'))
    (hpfn : parseFunctionForFeed start = some pfn)
    (herr : pfn env.timeParse d' { ld with articles := [] } = .error e) :
    checkForArticles env ld =
      { ld with articles := [], state := .LinkTransientError, lastError := some e } ∧
    IsTransient e = false := by
  constructor
  · rw [checkForArticles]
    dsimp only
    rw [if_neg (not_lt.mpr hrate), hreq]
    dsimp only
    rw [hfirst]
    dsimp only
    rw [hpfn]
    dsimp only
    rw [herr]
    dsimp only [LinkDetails.errorOccurred]
  · have hp := parseFunctionForFeed_eq _ _ hpfn
    rw [hp, feedParserTop] at herr
    exact feedParser_err_not_transient env.timeParse _ _ _ _ herr

/-- Witness for C5 at the concrete mismatched-close-tag feed. -/
theorem C5_mismatched_close_amended_w :
    checkForArticles envBadItem ldHasFeedOld =
      { ldHasFeedOld with articles := [], state := .LinkTransientError, lastError := some (.syntaxError ("element closed by wrong name")) } ∧
    IsTransient (.syntaxError ("element closed by wrong name")) = false :=
  C5_mismatched_close_amended envBadItem ldHasFeedOld respBadItem ("rss", [])
    ⟨[.startElement ("item") [], .startElement ("a") [], .endElement ("b"),
      .endElement ("item"), .endElement ("rss")], ["rss"]⟩
    feedParserTop (.syntaxError ("element closed by wrong name"))
    (by decide) rfl rfl rfl rfl

/-! Section: Claim C6 -/

/-- Claim C6 counterexample: in an item carrying both a `pubDate` and a
later `date` element, the extracted publish time comes from the LAST
date-bearing element (here `date`, parsing to 200), not from the first
(`pubDate`, which parses to 100): every occurrence overwrites
`rv.PubDate`. -/
theorem C6_pubdate_counterexample :
    parseTime tpDates ("2001-1-1") = .ok 100 ∧
    genericExtractArticle tpDates false 8
        (twoDateItem ("pubDate") ("2001-1-1") ("date") ("2002-2-2")) ""
        { url := "", title := "", pubDate := 0 } =
      .ok ({ url := "", title := "", pubDate := 200 }, ⟨[], []⟩) ∧
    (200 : Int) ≠ 100 :=
  ⟨rfl, rfl, by decide⟩

/-- Claim C6 (corrected): the publish time of an item is parsed from
EVERY `pubDate`/`updated`/`date` element it contains, in document
order, each occurrence overwriting the previous one — so the LAST
occurrence wins, not the first; each content string is parsed by trying
the fixed layout list (RFC 822, RFC 822 with numeric zone, RFC 1123,
RFC 1123 with numeric zone, RFC 3339, bare year-month-day) in order
until one succeeds, and if every layout fails the article's parse
fails with an error. -/
theorem C6_pubdate_amended (tp : TimeParse) :
    (∀ s, parseTime tp s =
      (match timeFormats.findSome? (fun f => tp f s) with
       | some t => .ok t
       | none => .error (MkError ("Could not parse time: " ++ s)))) ∧
    (∀ s, (∀ f ∈ timeFormats, tp f s = none) →
      parseTime tp s = .error (MkError ("Could not parse time: " ++ s))) ∧
    (∀ n1 n2 s1 s2 t1 t2, n1 ∈ dateTags → n2 ∈ dateTags →
      parseTime tp s1 = .ok t1 → parseTime tp s2 = .ok t2 →
      genericExtractArticle tp false 8 (twoDateItem n1 s1 n2 s2) ""
          { url := "", title := "", pubDate := 0 } =
        .ok ({ url := "", title := "", pubDate := t2 }, ⟨[], []⟩)) := by
  refine ⟨fun s => parseTimeAux_findSome tp s timeFormats, ?_, ?_⟩
  · intro s hf
    rw [parseTime, parseTimeAux_findSome tp s timeFormats]
    rw [List.findSome?_eq_none_iff.mpr hf]
  · intro n1 n2 s1 s2 t1 t2 hm1 hm2 hp1 hp2
    simp only [dateTags, List.mem_cons, List.not_mem_nil, or_false] at hm1 hm2
    rcases hm1 with rfl | rfl | rfl <;> rcases hm2 with rfl | rfl | rfl <;>
      simp [genericExtractArticle, twoDateItem, Decoder.token, hp1, hp2]

/-- Witness for C6 at the concrete two-date item. -/
theorem C6_pubdate_amended_w :
    genericExtractArticle tpDates false 8
        (twoDateItem ("pubDate") ("2001-1-1") ("date") ("2002-2-2")) ""
        { url := "", title := "", pubDate := 0 } =
      .ok ({ url := "", title := "", pubDate := 200 }, ⟨[], []⟩) :=
  (C6_pubdate_amended tpDates).2.2 ("pubDate") ("date") ("2001-1-1") ("2002-2-2")
    100 200 (by decide) (by decide) rfl rfl

/-! Section: Claim C7 -/

/-- Claim C7 counterexample: probing does NOT cover every
feed-looking link — it stops at the first accepted candidate.  With
two matching links and an environment accepting both, only the first
is probed, although the second also matches the heuristic. -/
theorem C7_probe_counterexample :
    namedLikeFeedLink linkRss2 = true ∧
    probedLinks envRss ("http://x/") [linkRss1, linkRss2] = [linkRss1] ∧
    linkRss2 ∉ probedLinks envRss ("http://x/") [linkRss1, linkRss2] := by
  refine ⟨by decide, by decide, by decide⟩

/-- Claim C7 (corrected): candidates are probed in page order, only
links matching the title/URL heuristic are ever probed, and probing
stops at the first accepted candidate (so matching links after it are
not probed; when no candidate is accepted, exactly the matching links
are probed).  The accepted candidate is the first heuristic-matching
link whose 200 response has a feed content-type and a recognized feed
root, and its on-page URL is returned as the discovered feed URL. -/
theorem C7_probe_amended (env : Env) (b : String) (links : List Link) :
    (∀ l ∈ probedLinks env b links, namedLikeFeedLink l = true) ∧
    scanLinksForFeed env b links =
      (links.find? (fun l => acceptsFeedCandidate env b l)).map (fun l => l.url) ∧
    (scanLinksForFeed env b links = none →
      probedLinks env b links = links.filter (fun l => namedLikeFeedLink l)) ∧
    (∀ ld resp, ld.baseUrl = b → env.fetch b = .ok resp → resp.status = 200 →
      resp.extractErr = none → resp.pageLinks = links →
      findFeedUrl env ld =
        (match (links.find? (fun l => acceptsFeedCandidate env b l)).map
            (fun l => l.url) with
         | some u => .ok u
         | none => .error (MkTransientError
            ("findFeedUrl: No link found in main page for " ++ ld.title)))) := by
  refine ⟨probedLinks_named env b links, scanLinksForFeed_eq env b links,
    probedLinks_all env b links, ?_⟩
  intro ld resp hb hfetch h200 hext hpl
  subst hb
  rw [findFeedUrl, hfetch]
  dsimp only
  rw [h200, hext, hpl]
  simp only [Option.isSome_none, Bool.false_and, Bool.and_eq_true]
  rw [if_pos (by decide), if_neg (by simp), scanLinksForFeed_eq]

/-- Witness for C7: at a concrete page, the probed links all match the
heuristic. -/
theorem C7_probe_amended_w : namedLikeFeedLink linkRss1 = true :=
  (C7_probe_amended envRss ("http://x/") [linkRss1]).1 linkRss1 (by decide)

/-! Section: Claim C8 -/

/-- Claim C8 (confirmed): `checkLink` preserves ascending-by-publish-
time ordering of the articles list, `checkForArticles` always leaves a
list sorted ascending by publish time (a successful refresh sorts the
freshly parsed list), and the refreshed list is computed wholesale,
independently of the articles previously on the record. -/
theorem C8_articles_sorted (env : Env) (ld : LinkDetails) (a b : List Article) :
    (List.Sorted articleLE ld.articles →
      List.Sorted articleLE (checkLink env ld).articles) ∧
    List.Sorted articleLE (checkForArticles env ld).articles ∧
    checkForArticles env { ld with articles := a } =
      checkForArticles env { ld with articles := b } :=
  ⟨fun h => checkLinkLoop_sorted env 3 ld h, checkForArticles_sorted env ld,
    checkForArticles_articles_independent env ld a b⟩

/-- Witness for C8 at a concrete record. -/
theorem C8_articles_sorted_w :
    List.Sorted articleLE (checkLink (envNoNet 0) ldNew).articles :=
  (C8_articles_sorted (envNoNet 0) ldNew [] []).1 List.sorted_nil

/-! Section: Claim C9 -/

theorem int_if_lt_max (a b : Int) : (if a < b then b else a) = max a b := by
  rcases lt_or_ge a b with h | h
  · rw [if_pos h, max_eq_right (le_of_lt h)]
  · rw [if_neg (not_lt.mpr h), max_eq_left h]

/-- Claim C9 counterexample: `MarkAllAsRead` does not in general set
`lastRead` to the latest publish time among the articles — when every
article is older than `lastRead` (latest publish time 5, `lastRead`
10), `lastRead` is left at 10. -/
theorem C9_mark_read_counterexample :
    (MarkAllAsRead { baseUrl := "b", state := .LinkHasFeed, feedUrl := "f", lastError := none, title := "t", lastRead := 10, lastChecked := 0, articles := [mkArt 5] }).lastRead = 10 ∧
    (10 : Int) ≠ 5 :=
  ⟨by decide, by decide⟩

/-- Claim C9 (corrected): `UnreadArticles` returns exactly the
articles published strictly after `lastRead` (in the `lastRead = T`,
publish-times `T-1, T, T+1, T+2` scenario: the two after `T`, and
`MarkAllAsRead` then sets `lastRead` to `T+2`); but in general
`MarkAllAsRead` advances `lastRead` to the maximum of its current
value and the latest publish time (seeded with the zero time) — it
never moves `lastRead` backward. -/
theorem C9_unread_amended (ld : LinkDetails) (x : Article) :
    (x ∈ UnreadArticles ld ↔ x ∈ ld.articles ∧ ld.lastRead < x.pubDate) ∧
    (MarkAllAsRead ld).lastRead =
      max ld.lastRead (ld.articles.foldl (fun acc art => max acc art.pubDate) 0) ∧
    (∀ T : Int, 0 ≤ T →
      UnreadArticles (scenarioRecord T) = [mkArt (T+1), mkArt (T+2)] ∧
      (MarkAllAsRead (scenarioRecord T)).lastRead = T + 2) := by
  have hfold : (fun (latest : Int) (art : Article) =>
      if latest < art.pubDate then art.pubDate else latest) =
      fun (latest : Int) (art : Article) => max latest art.pubDate := by
    funext acc art
    exact int_if_lt_max acc art.pubDate
  have hmark : ∀ ld' : LinkDetails, (MarkAllAsRead ld').lastRead =
      max ld'.lastRead (ld'.articles.foldl (fun acc art => max acc art.pubDate) 0) := by
    intro ld'
    rw [MarkAllAsRead]
    rw [hfold]
    rcases lt_or_ge ld'.lastRead
        (ld'.articles.foldl (fun acc art => max acc art.pubDate) 0) with h | h
    · rw [if_pos h, max_eq_right (le_of_lt h)]
    · rw [if_neg (not_lt.mpr h), max_eq_left h]
  refine ⟨?_, hmark ld, ?_⟩
  · simp [UnreadArticles, List.mem_filter]
  · intro T hT
    constructor
    · have h1 : ¬(T < T - 1) := by omega
      have h2 : ¬(T < T) := by omega
      have h3 : T < T + 1 := by omega
      have h4 : T < T + 2 := by omega
      simp [scenarioRecord, UnreadArticles, mkArt, List.filter, h1, h2, h3, h4]
    · rw [hmark (scenarioRecord T)]
      simp only [scenarioRecord, mkArt, List.foldl]
      have hstep : max (max (max (max (0 : Int) (T-1)) T) (T+1)) (T+2) = T + 2 := by
        rw [max_eq_right]
        refine max_le (max_le (max_le ?_ ?_) ?_) ?_ <;> omega
      rw [hstep, max_eq_right (by omega)]

/-- Witness for C9 at the concrete scenario with `T = 0`. -/
theorem C9_unread_amended_w :
    UnreadArticles (scenarioRecord 0) = [mkArt 1, mkArt 2] ∧
    (MarkAllAsRead (scenarioRecord 0)).lastRead = 2 := by
  have h := ((C9_unread_amended (scenarioRecord 0) (mkArt 0)).2.2 0 (by decide))
  simpa using h

/-! Section: Claim C10 -/

/-- Claim C10 (confirmed): `InterestedIn` on an already-present URL
leaves the record map entirely unchanged — including the stored record
and its title, even when a different title is supplied — while still
appending the URL to the session's noted list; calling it twice with
the same URL therefore makes `CheckForUpdates` submit the same record
to the worker channel twice in one batch. -/
theorem C10_interested_in_frame (ls : LinkStore) (url t1 t2 : String) (d : LinkDetails)
    (h : ls.lookup url = some d) :
    (InterestedIn (InterestedIn ls url t1) url t2).links = ls.links ∧
    (InterestedIn (InterestedIn ls url t1) url t2).noted = ls.noted ++ [url, url] ∧
    submittedBatch (InterestedIn (InterestedIn ls url t1) url t2) =
      submittedBatch ls ++ [some d, some d] := by
  have h1 : InterestedIn ls url t1 = { ls with noted := ls.noted ++ [url] } := by
    rw [InterestedIn, h]
  have hlook1 : LinkStore.lookup { ls with noted := ls.noted ++ [url] } url = some d := h
  have h2 : InterestedIn { ls with noted := ls.noted ++ [url] } url t2 =
      { ls with noted := (ls.noted ++ [url]) ++ [url] } := by
    rw [InterestedIn, hlook1]
  rw [h1, h2]
  refine ⟨rfl, by simp, ?_⟩
  rw [submittedBatch, submittedBatch]
  dsimp only
  have hlu : LinkStore.lookup { ls with noted := ls.noted ++ [url] ++ [url] } = ls.lookup := rfl
  rw [hlu]
  simp [h]

/-- Witness for C10 at a concrete one-record store. -/
theorem C10_interested_in_frame_w :
    submittedBatch (InterestedIn (InterestedIn lsFix ("u") ("a")) ("u") ("b")) =
      submittedBatch lsFix ++ [some (newLinkDetails ("u") ("t")),
        some (newLinkDetails ("u") ("t"))] :=
  (C10_interested_in_frame lsFix ("u") ("a") ("b") (newLinkDetails ("u") ("t")) rfl).2.2

/-! Section: Claim C1 -/

/-- Claim C1 counterexample: the `HasFeed → feedUrl non-empty`
invariant can be broken by discovery itself.  A page that extracts to
a feed-titled link with an EMPTY URL, served with a feed content-type
and a feed root (so the probe of the empty URL — which resolves back to
the base page — validates), makes `checkLink` accept the empty string
as the discovered feed URL: the final record is in `HasFeed` with
`feedUrl = ""`. -/
theorem C1_feed_url_counterexample :
    (checkLink envSelfFeed ldNew).state = .LinkHasFeed ∧
    (checkLink envSelfFeed ldNew).feedUrl = "" :=
  ⟨by decide, by decide⟩

/-- Claim C1 (corrected): every transition of `checkLink` preserves
the invariant `state = HasFeed → feedUrl non-empty` PROVIDED every
link extracted from any fetched page has a non-empty URL; without that
proviso discovery can accept an empty candidate URL and establish
`HasFeed` with an empty `feedUrl`. -/
theorem C1_feed_url_amended (env : Env) (ld : LinkDetails)
    (hlinks : ∀ u resp, env.fetch u = .ok resp → ∀ l ∈ resp.pageLinks, l.url ≠ "")
    (hinv : ld.state = .LinkHasFeed → ld.feedUrl ≠ "") :
    ((checkLinkStep env ld).1.state = .LinkHasFeed →
      (checkLinkStep env ld).1.feedUrl ≠ "") ∧
    ((checkLink env ld).state = .LinkHasFeed → (checkLink env ld).feedUrl ≠ "") :=
  ⟨checkLinkStep_inv env ld hlinks hinv, checkLinkLoop_inv env hlinks 3 ld hinv⟩

/-- Witness for C1: at a record in `TransientError` with a recorded
feed URL and an offline environment, the step that re-establishes
`HasFeed` keeps the feed URL non-empty. -/
theorem C1_feed_url_amended_w :
    (checkLinkStep (envNoNet 0) ldTransient).1.feedUrl ≠ "" :=
  (C1_feed_url_amended (envNoNet 0) ldTransient
    (fun _ _ hr => nomatch hr) (fun hs => nomatch hs)).1 (by decide)
